import Mathlib

/-!
Verification of the Template Localization Engine (translation.py).

The Python source is shallowly embedded: strings are `List Char`, byte
offsets are natural numbers computed with `Char.utf8Size`, dictionaries
are association lists, and the HTTP layer is a function parameter.
Each definition mirrors the corresponding Python function.
-/

set_option autoImplicit false

/-- Python whitespace predicate used by `str.strip()` (ASCII subset). -/
def isPySpace (c : Char) : Bool :=
  c = ' ' || c = '\t' || c = '\n' || c = '\r' || c = '\x0b' || c = '\x0c'

/-- Embedding of Python `str.strip()`: drop whitespace from both ends. -/
def pyStrip (l : List Char) : List Char :=
  ((l.dropWhile isPySpace).reverse.dropWhile isPySpace).reverse

/-- Embedding of Python `str.isnumeric()` (restricted to ASCII digits,
the only numerals relevant to the scanned templates). -/
def pyIsNumeric (l : List Char) : Bool :=
  !l.isEmpty && l.all Char.isDigit

/-- Embedding of Python `str.isalpha()` (ASCII letters). -/
def pyIsAlpha (l : List Char) : Bool :=
  !l.isEmpty && l.all Char.isAlpha

/-- The UTF-8 byte length of a decoded string, as Python
`len(s.encode("utf8"))` computes it. -/
def utf8Len (l : List Char) : Nat :=
  (l.map Char.utf8Size).sum

/-- Embedding of Python `str.replace(old, new)` for a one-character
pattern: every occurrence of `a` is replaced by `rep`. -/
def replaceChar (a : Char) (rep : List Char) : List Char → List Char
  | [] => []
  | c :: rest => (if c = a then rep else [c]) ++ replaceChar a rep rest

/-- Embedding of Python `str.replace(old, new)` for a two-character
pattern `[p, q]`: the scan is left to right and non-overlapping, and the
replacement text is not rescanned, exactly as in CPython. -/
def replacePair (p q : Char) (rep : List Char) : List Char → List Char
  | [] => []
  | [c] => [c]
  | c1 :: c2 :: rest =>
    if c1 = p ∧ c2 = q then rep ++ replacePair p q rep rest
    else c1 :: replacePair p q rep (c2 :: rest)

/-- `unescape_php_string` from translation.py: undo the quote escape
(backslash-quote becomes quote) first, then the backslash escape
(double backslash becomes single backslash). -/
def unescape_php_string (text : List Char) : List Char :=
  replacePair '\\' '\\' ['\\'] (replacePair '\\' '\x27' ['\x27'] text)

/-- The escaping step of `apply_changes` (translation.py line 420):
backslashes are doubled first, then single quotes are
backslash-escaped, in that order. -/
def php_escape (text : List Char) : List Char :=
  replaceChar '\x27' ['\\', '\x27'] (replaceChar '\\' ['\\', '\\'] text)

/-- `is_already_escaped` from translation.py: the text contains an
escaped quote or an escaped backslash. -/
def hasPair (p q : Char) : List Char → Bool
  | [] => false
  | [_] => false
  | c1 :: c2 :: rest => (c1 = p && c2 = q) || hasPair p q (c2 :: rest)

def is_already_escaped (text : List Char) : Bool :=
  hasPair '\\' '\x27' text || hasPair '\\' '\\' text

/- ### Round-trip lemmas for escape/unescape (claim C6) -/

/-- Image of one character under the combined escape map. -/
def escChar (c : Char) : List Char :=
  if c = '\\' then ['\\', '\\'] else if c = '\x27' then ['\\', '\x27'] else [c]

/-- Image of one character after the first unescape pass has undone the
quote escapes. -/
def escChar1 (c : Char) : List Char :=
  if c = '\\' then ['\\', '\\'] else [c]

theorem escChar_bs : escChar '\\' = ['\\', '\\'] := by decide

theorem escChar_quote : escChar '\x27' = ['\\', '\x27'] := by decide

theorem escChar_other (c : Char) (hb : c ≠ '\\') (hq : c ≠ '\x27') : escChar c = [c] := by
  simp [escChar, hb, hq]

theorem escChar1_bs : escChar1 '\\' = ['\\', '\\'] := by decide

theorem escChar1_other (c : Char) (hb : c ≠ '\\') : escChar1 c = [c] := by
  simp [escChar1, hb]

theorem replacePair_match (p q : Char) (rep t : List Char) :
    replacePair p q rep (p :: q :: t) = rep ++ replacePair p q rep t := by
  simp [replacePair]

theorem replacePair_nomatch (p q c1 c2 : Char) (rep t : List Char) (h : ¬(c1 = p ∧ c2 = q)) :
    replacePair p q rep (c1 :: c2 :: t) = c1 :: replacePair p q rep (c2 :: t) := by
  simp only [replacePair, if_neg h]

/-- The replace scan on a character the pattern cannot start at just
moves past it. -/
theorem replacePair_cons_ne (p q : Char) (rep : List Char) (c : Char) (l : List Char)
    (h : c ≠ p) : replacePair p q rep (c :: l) = c :: replacePair p q rep l := by
  cases l with
  | nil => rfl
  | cons d t => exact replacePair_nomatch p q c d rep t (by simp [h])

theorem replaceChar_append (a : Char) (rep : List Char) (l₁ l₂ : List Char) :
    replaceChar a rep (l₁ ++ l₂) = replaceChar a rep l₁ ++ replaceChar a rep l₂ := by
  induction l₁ with
  | nil => rfl
  | cons c t ih => simp [replaceChar, ih]

theorem php_escape_eq_flatten (t : List Char) :
    php_escape t = (t.map escChar).flatten := by
  induction t with
  | nil => rfl
  | cons c t ih =>
    show replaceChar '\x27' ['\\', '\x27']
        ((if c = '\\' then ['\\', '\\'] else [c]) ++ replaceChar '\\' ['\\', '\\'] t) = _
    rw [replaceChar_append]
    by_cases hb : c = '\\'
    · subst hb
      rw [if_pos rfl, List.map_cons, List.flatten_cons, escChar_bs]
      rw [show replaceChar '\x27' ['\\', '\x27'] ['\\', '\\'] = ['\\', '\\'] from by decide]
      exact congrArg _ ih
    · rw [if_neg hb, List.map_cons, List.flatten_cons]
      by_cases hq : c = '\x27'
      · subst hq
        rw [escChar_quote]
        rw [show replaceChar '\x27' ['\\', '\x27'] ['\x27'] = ['\\', '\x27'] from by decide]
        exact congrArg _ ih
      · rw [escChar_other c hb hq]
        rw [show replaceChar '\x27' ['\\', '\x27'] [c]
              = (if c = '\x27' then ['\\', '\x27'] else [c]) ++ [] from rfl]
        rw [if_neg hq, List.append_nil]
        exact congrArg _ ih

/-- A leading extra backslash passes through the quote-unescape pass
whenever the next character is not a quote. -/
theorem replacePair_bs_cons (c : Char) (l : List Char) (h : c ≠ '\x27') :
    replacePair '\\' '\x27' ['\x27'] ('\\' :: c :: l)
      = '\\' :: replacePair '\\' '\x27' ['\x27'] (c :: l) :=
  replacePair_nomatch _ _ _ _ _ _ (by simp [h])

/-- The flattened escape image of any string starts with a character
other than a quote, so a stray leading backslash passes through the
quote-unescape pass unchanged. -/
theorem replacePair_bs_escImage (t : List Char) :
    replacePair '\\' '\x27' ['\x27'] ('\\' :: (t.map escChar).flatten)
      = '\\' :: replacePair '\\' '\x27' ['\x27'] ((t.map escChar).flatten) := by
  cases t with
  | nil => rfl
  | cons c l =>
    have hx : ∃ x xs, escChar c ++ (l.map escChar).flatten = x :: xs ∧ x ≠ '\x27' := by
      by_cases hb : c = '\\'
      · subst hb
        exact ⟨'\\', '\\' :: (l.map escChar).flatten, by rw [escChar_bs]; rfl, by decide⟩
      · by_cases hq : c = '\x27'
        · subst hq
          exact ⟨'\\', '\x27' :: (l.map escChar).flatten, by rw [escChar_quote]; rfl, by decide⟩
        · exact ⟨c, (l.map escChar).flatten, by rw [escChar_other c hb hq]; rfl, hq⟩
    obtain ⟨x, xs, hcons, hne⟩ := hx
    rw [List.map_cons, List.flatten_cons, hcons, replacePair_bs_cons x xs hne]

theorem unescape_pass1 (t : List Char) :
    replacePair '\\' '\x27' ['\x27'] ((t.map escChar).flatten)
      = (t.map escChar1).flatten := by
  induction t with
  | nil => rfl
  | cons c l ih =>
    rw [List.map_cons, List.flatten_cons, List.map_cons, List.flatten_cons]
    by_cases hb : c = '\\'
    · subst hb
      rw [escChar_bs, escChar1_bs]
      rw [show ((['\\', '\\'] : List Char) ++ (l.map escChar).flatten)
            = '\\' :: '\\' :: (l.map escChar).flatten from rfl]
      rw [replacePair_bs_cons '\\' _ (by decide), replacePair_bs_escImage l, ih]
      rfl
    · by_cases hq : c = '\x27'
      · subst hq
        rw [escChar_quote, escChar1_other '\x27' hb]
        rw [show ((['\\', '\x27'] : List Char) ++ (l.map escChar).flatten)
              = '\\' :: '\x27' :: (l.map escChar).flatten from rfl]
        rw [replacePair_match, ih]
      · rw [escChar_other c hb hq, escChar1_other c hb]
        rw [show (([c] : List Char) ++ (l.map escChar).flatten)
              = c :: (l.map escChar).flatten from rfl]
        rw [replacePair_cons_ne _ _ _ _ _ hb, ih]
        rfl

theorem unescape_pass2 (t : List Char) :
    replacePair '\\' '\\' ['\\'] ((t.map escChar1).flatten) = t := by
  induction t with
  | nil => rfl
  | cons c l ih =>
    by_cases hb : c = '\\'
    · subst hb
      simpa [escChar1, replacePair] using ih
    · simp only [List.map_cons, List.flatten_cons, escChar1, if_neg hb, List.singleton_append]
      rw [replacePair_cons_ne _ _ _ _ _ hb, ih]

/-- C6: round-trip of the PHP string escaping used by the rewrite engine
with `unescape_php_string`. -/
theorem unescape_php_escape_roundtrip (t : List Char) :
    unescape_php_string (php_escape t) = t := by
  rw [php_escape_eq_flatten, unescape_php_string, unescape_pass1, unescape_pass2]

/- ### Byte-offset slicing over decoded buffers -/

/-- Model of `buf[:n]` on a UTF-8 byte buffer presented as its decoded
characters: keep characters while their encodings fit in the first `n`
bytes; a character cut in the middle is dropped, matching a later
`decode(..., errors="ignore")`. -/
def byteTake : Nat → List Char → List Char
  | _, [] => []
  | n, c :: rest => if c.utf8Size ≤ n then c :: byteTake (n - c.utf8Size) rest else []

/-- Model of `buf[n:]` on a UTF-8 byte buffer presented as its decoded
characters; a character cut in the middle is dropped, matching
`decode(..., errors="ignore")`. -/
def byteDrop : Nat → List Char → List Char
  | _, [] => []
  | 0, l => l
  | n, c :: rest => if c.utf8Size ≤ n then byteDrop (n - c.utf8Size) rest else rest

/-- Model of `buf[s:e].decode("utf8", errors="ignore")`. -/
def byteSlice (buf : List Char) (s e : Nat) : List Char :=
  byteDrop s (byteTake e buf)

/-- `is_already_wrapped` from translation.py: decode the byte range and
return the inner text when the slice starts with the wrap-open `__(`
plus a single quote and ends with a single quote plus `)`, and `none`
otherwise.  The Python `except UnicodeDecodeError`
branch is unreachable because the decode ignores errors; the embedding
is a total function. -/
def is_already_wrapped (original_content : List Char) (start_byte end_byte : Nat) :
    Option (List Char) :=
  let actual_text := byteSlice original_content start_byte end_byte
  if ("__(\x27".toList).isPrefixOf actual_text ∧ ("\x27)".toList).isSuffixOf actual_text then
    some ((actual_text.take (actual_text.length - 2)).drop 4)
  else
    none

/- ### Claim C4: the wrap-state detector versus the fixed pattern -/

/-- C4 counterexample: on the 5-byte slice wrap-open + quote + close
paren, the 4-byte prefix test and the 2-byte suffix test overlap, so the
detector reports a wrap with empty inner text even though the slice does
not match the full wrapper pattern around any content. -/
theorem c4_wrap_detector_counterexample :
    is_already_wrapped ("__(\x27)".toList) 0 5 = some [] ∧
      byteSlice ("__(\x27)".toList) 0 5 ≠ "__(\x27".toList ++ ([] : List Char) ++ "\x27)".toList := by
  constructor
  · decide
  · decide

/-- C4 (amended): for every buffer and byte range whose decoded slice
has at least 6 characters, `is_already_wrapped` returns `some inner`
exactly when the slice is the 4-character wrap-open ++ inner ++ the
2-character wrap-close; decoding is total (errors are ignored) and the
function is pure. -/
theorem c4_wrap_detector_pattern (oc : List Char) (s e : Nat) (inner : List Char)
    (h6 : 6 ≤ (byteSlice oc s e).length) :
    is_already_wrapped oc s e = some inner ↔
      byteSlice oc s e = "__(\x27".toList ++ inner ++ "\x27)".toList := by
  unfold is_already_wrapped
  constructor
  · intro hw
    by_cases hcond : ("__(\x27".toList).isPrefixOf (byteSlice oc s e) ∧
        ("\x27)".toList).isSuffixOf (byteSlice oc s e)
    · rw [if_pos hcond] at hw
      obtain ⟨hpre, hsuf⟩ := hcond
      obtain ⟨t, ht⟩ : "__(\x27".toList <+: byteSlice oc s e :=
        (List.isPrefixOf_iff_prefix).mp hpre
      obtain ⟨u, hu⟩ : "\x27)".toList <:+ byteSlice oc s e :=
        (List.isSuffixOf_iff_suffix).mp hsuf
      have hlen : (byteSlice oc s e).length = u.length + 2 := by
        rw [← hu, List.length_append]
        rfl
      have hul : 4 ≤ u.length := by omega
      have htake : (byteSlice oc s e).take ((byteSlice oc s e).length - 2) = u := by
        rw [← hu]
        have : (u ++ "\x27)".toList).length - 2 = u.length := by
          rw [List.length_append]; rfl
        rw [this]
        exact List.take_left u _
      have hinner : inner = u.drop 4 := by
        have := hw
        injection this with hv
        rw [← hv, htake]
      have hslice4 : (byteSlice oc s e).drop 4 = t := by
        rw [← ht]
        have h4 : ("__(\x27".toList).length = 4 := rfl
        rw [← h4]
        exact List.drop_left _ _
      have hslice4' : (byteSlice oc s e).drop 4 = u.drop 4 ++ "\x27)".toList := by
        rw [← hu]
        exact List.drop_append_of_le_length hul
      rw [← ht, hslice4.symm, hslice4', hinner, List.append_assoc]
    · rw [if_neg hcond] at hw
      exact absurd hw (by simp)
  · intro heq
    have hpre : ("__(\x27".toList).isPrefixOf (byteSlice oc s e) = true := by
      rw [List.isPrefixOf_iff_prefix, heq]
      exact ⟨inner ++ "\x27)".toList, by rw [List.append_assoc]⟩
    have hsuf : ("\x27)".toList).isSuffixOf (byteSlice oc s e) = true := by
      rw [List.isSuffixOf_iff_suffix, heq]
      exact ⟨"__(\x27".toList ++ inner, by rw [List.append_assoc]⟩
    rw [if_pos ⟨hpre, hsuf⟩]
    have hlen : (byteSlice oc s e).length - 2 = 4 + inner.length := by
      rw [heq]
      simp [List.length_append]
      omega
    rw [hlen, heq]
    have h1 : ("__(\x27".toList ++ inner ++ "\x27)".toList).take (4 + inner.length)
        = "__(\x27".toList ++ inner := by
      rw [List.append_assoc]
      have h4 : ("__(\x27".toList).length = 4 := rfl
      rw [show 4 + inner.length = ("__(\x27".toList).length + inner.length from by rw [h4]]
      rw [List.take_append]
      rw [List.take_left inner _]
    rw [h1]
    have h2 : ("__(\x27".toList ++ inner).drop 4 = inner := by
      have h4 : ("__(\x27".toList).length = 4 := rfl
      rw [← h4]
      exact List.drop_left _ _
    rw [h2]

/-- Witness for the amended C4 theorem at a concrete wrapped slice. -/
theorem c4_wrap_detector_pattern_witness :
    is_already_wrapped ("__(\x27Hi\x27)".toList) 0 8 = some ("Hi".toList) :=
  (c4_wrap_detector_pattern ("__(\x27Hi\x27)".toList) 0 8 ("Hi".toList) (by decide)).mpr
    (by decide)

/- ### Association-list model of Python dicts -/

abbrev LC := List Char

/-- Python dict lookup: first entry with the given key. -/
def dictLookup {β : Type} (d : List (LC × β)) (k : LC) : Option β :=
  (d.find? (fun p => p.1 == k)).map (fun p => p.2)

/-- Python `dict.update(upd)`: keys already present keep their position
and receive the updated value; fresh keys are appended in order. -/
def dictUpdate {β : Type} (d upd : List (LC × β)) : List (LC × β) :=
  d.map (fun p =>
    match dictLookup upd p.1 with
    | some v => (p.1, v)
    | none => p)
  ++ upd.filter (fun p => (dictLookup d p.1).isNone)

theorem dictLookup_cons {β : Type} (a : LC) (b : β) (t : List (LC × β)) (k : LC) :
    dictLookup ((a, b) :: t) k = if a = k then some b else dictLookup t k := by
  by_cases h : a = k
  · subst h
    simp [dictLookup, List.find?_cons_of_pos]
  · rw [if_neg h]
    unfold dictLookup
    rw [List.find?_cons_of_neg]
    simpa using h

theorem dictLookup_append {β : Type} (A B : List (LC × β)) (k : LC) :
    dictLookup (A ++ B) k =
      match dictLookup A k with
      | some v => some v
      | none => dictLookup B k := by
  induction A with
  | nil => simp [dictLookup]
  | cons p t ih =>
    obtain ⟨a, b⟩ := p
    rw [List.cons_append, dictLookup_cons, dictLookup_cons]
    by_cases h : a = k
    · simp [h]
    · simp [h, ih]

theorem dictLookup_map_update {β : Type} (d u : List (LC × β)) (k : LC) :
    dictLookup
        (d.map (fun p =>
          match dictLookup u p.1 with
          | some v => (p.1, v)
          | none => p)) k
      = (dictLookup d k).map (fun v =>
          match dictLookup u k with
          | some w => w
          | none => v) := by
  induction d with
  | nil => simp [dictLookup]
  | cons p t ih =>
    obtain ⟨a, b⟩ := p
    rw [List.map_cons, dictLookup_cons]
    by_cases h : a = k
    · subst h
      cases hu : dictLookup u a with
      | none => simp [hu, dictLookup_cons]
      | some w => simp [hu, dictLookup_cons]
    · cases hu : dictLookup u a with
      | none => simpa [dictLookup_cons, h, hu] using ih
      | some w => simpa [dictLookup_cons, h, hu] using ih

theorem dictLookup_filter_isNone {β : Type} (d u : List (LC × β)) (k : LC) :
    dictLookup (u.filter (fun p => (dictLookup d p.1).isNone)) k
      = if (dictLookup d k).isNone then dictLookup u k else none := by
  induction u with
  | nil =>
    show (none : Option β) = if (dictLookup d k).isNone then (none : Option β) else none
    rw [ite_self]
  | cons p t ih =>
    obtain ⟨a, b⟩ := p
    by_cases h : a = k
    · subst h
      cases hd : dictLookup d a with
      | none => simp [List.filter_cons, hd, dictLookup_cons, ih]
      | some w => simp [List.filter_cons, hd, dictLookup_cons, ih]
    · cases hd : dictLookup d a with
      | none => simp [List.filter_cons, hd, dictLookup_cons, h, ih]
      | some w => simp [List.filter_cons, hd, dictLookup_cons, h, ih]

/-- Lookup after a Python-style `dict.update`: updated keys win,
untouched keys keep their value, fresh keys come from the update. -/
theorem dictLookup_dictUpdate {β : Type} (d u : List (LC × β)) (k : LC) :
    dictLookup (dictUpdate d u) k =
      match dictLookup d k, dictLookup u k with
      | some _, some v => some v
      | some v, none => some v
      | none, r => r := by
  unfold dictUpdate
  rw [dictLookup_append, dictLookup_map_update, dictLookup_filter_isNone]
  cases hd : dictLookup d k with
  | none => simp
  | some v =>
    cases hu : dictLookup u k with
    | none => simp [hu]
    | some w => simp [hu]

/- ### `update_lang_file` merge and conflict policy (claim C1) -/

/-- The key-classification loop of `update_lang_file` (translation.py
lines 562-576): walk `new_keys` in order; a key whose existing store
value is non-blank (`existing[key].strip()` truthy) and different from
the new value becomes a conflict, every other key goes to
`keys_to_update`. -/
def mergeKeys (existing : List (LC × LC)) :
    List (LC × LC) → List (LC × LC) × List (LC × (LC × LC))
  | [] => ([], [])
  | (key, new_value) :: rest =>
    let r := mergeKeys existing rest
    match dictLookup existing key with
    | some existing_value =>
      if pyStrip existing_value ≠ [] then
        if existing_value ≠ new_value then
          (r.1, (key, (existing_value, new_value)) :: r.2)
        else ((key, new_value) :: r.1, r.2)
      else ((key, new_value) :: r.1, r.2)
    | none => ((key, new_value) :: r.1, r.2)

/-- The merge step of `update_lang_file`: non-interactive mode keeps the
existing value for every conflicting key and reports the conflicts;
interactive mode additionally writes the new value for exactly those
conflicting keys the operator answers "new" for (`choiceNew`). Returns
the updated store and the conflict list. -/
def update_lang_file_merge (existing new_keys : List (LC × LC))
    (is_interactive : Bool) (choiceNew : LC → Bool) :
    List (LC × LC) × List (LC × (LC × LC)) :=
  let r := mergeKeys existing new_keys
  let keys_to_update :=
    if is_interactive then
      r.1 ++ (r.2.filter (fun t => choiceNew t.1)).map (fun t => (t.1, t.2.2))
    else r.1
  (dictUpdate existing keys_to_update, r.2)

theorem mergeKeys_not_mem (existing nk : List (LC × LC)) (k : LC)
    (hk : k ∉ nk.map Prod.fst) :
    dictLookup (mergeKeys existing nk).1 k = none ∧
      dictLookup (mergeKeys existing nk).2 k = none := by
  induction nk with
  | nil => exact ⟨rfl, rfl⟩
  | cons p rest ih =>
    obtain ⟨key, nv⟩ := p
    have hne : key ≠ k := by
      intro h
      exact hk (by simp [h])
    have hrest : k ∉ rest.map Prod.fst := by
      intro h
      exact hk (by simp [h])
    obtain ⟨ih1, ih2⟩ := ih hrest
    unfold mergeKeys
    cases hex : dictLookup existing key with
    | none => simpa [dictLookup_cons, hne] using ⟨ih1, ih2⟩
    | some ev =>
      by_cases hblank : pyStrip ev ≠ []
      · by_cases hdiff : ev ≠ nv
        · simpa [hblank, hdiff, dictLookup_cons, hne] using ⟨ih1, ih2⟩
        · simpa [hblank, hdiff, dictLookup_cons, hne] using ⟨ih1, ih2⟩
      · simpa [hblank, dictLookup_cons, hne] using ⟨ih1, ih2⟩

/-- Cons-step equation for `mergeKeys`: a head key whose existing value
is non-blank and different becomes a conflict. -/
theorem mergeKeys_cons_conflict (existing rest : List (LC × LC)) (key nv ev : LC)
    (hex : dictLookup existing key = some ev) (hblank : pyStrip ev ≠ []) (hdiff : ev ≠ nv) :
    mergeKeys existing ((key, nv) :: rest) =
      ((mergeKeys existing rest).1, (key, (ev, nv)) :: (mergeKeys existing rest).2) := by
  simp only [mergeKeys]
  rw [hex]
  simp [hblank, hdiff]

/-- Cons-step equation for `mergeKeys`: a head key that is absent,
blank, or equal in the existing store goes to `keys_to_update`. -/
theorem mergeKeys_cons_update (existing rest : List (LC × LC)) (key nv : LC)
    (h : dictLookup existing key = none ∨
      ∃ ev, dictLookup existing key = some ev ∧ (pyStrip ev = [] ∨ ev = nv)) :
    mergeKeys existing ((key, nv) :: rest) =
      ((key, nv) :: (mergeKeys existing rest).1, (mergeKeys existing rest).2) := by
  simp only [mergeKeys]
  rcases h with h | ⟨ev, hev, hor⟩
  · rw [h]
  · rw [hev]
    rcases hor with h2 | h2
    · simp [h2]
    · simp [h2]

/-- Classification of a fresh key by the merge loop: conflicting keys go
only to the conflict list, all other keys go only to the update list. -/
theorem mergeKeys_lookup (existing nk : List (LC × LC)) (k nv : LC)
    (hnd : (nk.map Prod.fst).Nodup) (hk : dictLookup nk k = some nv) :
    (∀ ev, dictLookup existing k = some ev → pyStrip ev ≠ [] → ev ≠ nv →
      dictLookup (mergeKeys existing nk).1 k = none ∧
        dictLookup (mergeKeys existing nk).2 k = some (ev, nv)) ∧
    ((dictLookup existing k = none ∨
        ∃ ev, dictLookup existing k = some ev ∧ (pyStrip ev = [] ∨ ev = nv)) →
      dictLookup (mergeKeys existing nk).1 k = some nv ∧
        dictLookup (mergeKeys existing nk).2 k = none) := by
  induction nk with
  | nil => simp [dictLookup] at hk
  | cons p rest ih =>
    obtain ⟨key, nv'⟩ := p
    rw [dictLookup_cons] at hk
    rw [List.map_cons, List.nodup_cons] at hnd
    obtain ⟨hnotmem, hndrest⟩ := hnd
    by_cases hkey : key = k
    · subst hkey
      rw [if_pos rfl] at hk
      injection hk with hnv
      subst hnv
      obtain ⟨h1, h2⟩ := mergeKeys_not_mem existing rest key hnotmem
      constructor
      · intro ev hev hstrip hne
        rw [mergeKeys_cons_conflict existing rest key nv' ev hev hstrip hne]
        exact ⟨h1, by simp [dictLookup_cons]⟩
      · intro hcase
        rw [mergeKeys_cons_update existing rest key nv' hcase]
        exact ⟨by simp [dictLookup_cons], h2⟩
    · rw [if_neg hkey] at hk
      obtain ⟨IH1, IH2⟩ := ih hndrest hk
      have hupd : ∀ (h : dictLookup existing key = none ∨
          ∃ ev, dictLookup existing key = some ev ∧ (pyStrip ev = [] ∨ ev = nv')),
          (∀ ev, dictLookup existing k = some ev → pyStrip ev ≠ [] → ev ≠ nv →
            dictLookup (mergeKeys existing ((key, nv') :: rest)).1 k = none ∧
              dictLookup (mergeKeys existing ((key, nv') :: rest)).2 k = some (ev, nv)) ∧
          ((dictLookup existing k = none ∨
              ∃ ev, dictLookup existing k = some ev ∧ (pyStrip ev = [] ∨ ev = nv)) →
            dictLookup (mergeKeys existing ((key, nv') :: rest)).1 k = some nv ∧
              dictLookup (mergeKeys existing ((key, nv') :: rest)).2 k = none) := by
        intro h
        rw [mergeKeys_cons_update existing rest key nv' h]
        constructor
        · intro ev hev hstrip hne
          obtain ⟨g1, g2⟩ := IH1 ev hev hstrip hne
          exact ⟨by rw [dictLookup_cons, if_neg hkey]; exact g1, g2⟩
        · intro hcase
          obtain ⟨g1, g2⟩ := IH2 hcase
          exact ⟨by rw [dictLookup_cons, if_neg hkey]; exact g1, g2⟩
      cases hclass : dictLookup existing key with
      | none => exact hupd (Or.inl hclass)
      | some ev0 =>
        by_cases hb : pyStrip ev0 = []
        · exact hupd (Or.inr ⟨ev0, hclass, Or.inl hb⟩)
        · by_cases hd : ev0 = nv'
          · exact hupd (Or.inr ⟨ev0, hclass, Or.inr hd⟩)
          · rw [mergeKeys_cons_conflict existing rest key nv' ev0 hclass hb hd]
            constructor
            · intro ev hev hstrip hne
              obtain ⟨g1, g2⟩ := IH1 ev hev hstrip hne
              exact ⟨g1, by rw [dictLookup_cons, if_neg hkey]; exact g2⟩
            · intro hcase
              obtain ⟨g1, g2⟩ := IH2 hcase
              exact ⟨g1, by rw [dictLookup_cons, if_neg hkey]; exact g2⟩

theorem dictLookup_conflict_extra (conf : List (LC × (LC × LC))) (choice : LC → Bool) (k : LC) :
    dictLookup ((conf.filter (fun t => choice t.1)).map (fun t => (t.1, t.2.2))) k
      = if choice k then (dictLookup conf k).map (fun p => p.2) else none := by
  induction conf with
  | nil =>
    show (none : Option LC) = if choice k then ((none : Option (LC × LC)).map fun p => p.2) else none
    rw [show ((none : Option (LC × LC)).map fun p => p.2) = (none : Option LC) from rfl, ite_self]
  | cons t rest ih =>
    obtain ⟨a, b⟩ := t
    by_cases hc : choice a
    · by_cases hk : a = k
      · subst hk
        simp [List.filter_cons, hc, dictLookup_cons]
      · simp [List.filter_cons, hc, dictLookup_cons, hk, ih]
    · by_cases hk : a = k
      · subst hk
        simp [List.filter_cons, hc, dictLookup_cons, ih]
      · simp [List.filter_cons, hc, dictLookup_cons, hk, ih]

/-- C1 counterexample: a whitespace-only store value is a non-empty
string that differs from the incoming translation, yet the
non-interactive merge silently overwrites it and reports no conflict
(the code tests `existing[key].strip()`, not emptiness). -/
theorem c1_merge_counterexample :
    update_lang_file_merge [("Home".toList, " ".toList)] [("Home".toList, "X".toList)] false
        (fun _ => false)
      = ([("Home".toList, "X".toList)], []) ∧
    (" ".toList : LC) ≠ [] ∧ (" ".toList : LC) ≠ "X".toList := by
  refine ⟨by decide, by decide, by decide⟩

/-- C1 (amended): for a fresh key `k ↦ nv`, the merge of
`update_lang_file` overwrites the store entry exactly when the store has
no existing non-blank value (non-empty after stripping whitespace) for
`k` or the existing value equals `nv`; when an existing non-blank value
differs, the non-interactive merge keeps the existing value and reports
the conflict, while the interactive merge applies the per-key operator
choice of existing or new. -/
theorem c1_merge_policy (existing nk : List (LC × LC)) (k nv : LC) (choiceNew : LC → Bool)
    (hnd : (nk.map Prod.fst).Nodup) (hk : dictLookup nk k = some nv) :
    (∀ ev, dictLookup existing k = some ev → pyStrip ev ≠ [] → ev ≠ nv →
      dictLookup (update_lang_file_merge existing nk false choiceNew).1 k = some ev ∧
        dictLookup (update_lang_file_merge existing nk false choiceNew).2 k = some (ev, nv) ∧
        dictLookup (update_lang_file_merge existing nk true choiceNew).1 k
          = some (if choiceNew k then nv else ev)) ∧
    ((dictLookup existing k = none ∨
        ∃ ev, dictLookup existing k = some ev ∧ (pyStrip ev = [] ∨ ev = nv)) →
      dictLookup (update_lang_file_merge existing nk false choiceNew).1 k = some nv ∧
        dictLookup (update_lang_file_merge existing nk false choiceNew).2 k = none) := by
  obtain ⟨M1, M2⟩ := mergeKeys_lookup existing nk k nv hnd hk
  constructor
  · intro ev hev hstrip hne
    obtain ⟨g1, g2⟩ := M1 ev hev hstrip hne
    refine ⟨?_, ?_, ?_⟩
    · show dictLookup (dictUpdate existing (mergeKeys existing nk).1) k = some ev
      rw [dictLookup_dictUpdate, hev, g1]
    · exact g2
    · show dictLookup
          (dictUpdate existing
            ((mergeKeys existing nk).1 ++
              (((mergeKeys existing nk).2.filter (fun t => choiceNew t.1)).map
                (fun t => (t.1, t.2.2))))) k
        = some (if choiceNew k then nv else ev)
      rw [dictLookup_dictUpdate, hev, dictLookup_append, g1, dictLookup_conflict_extra, g2]
      by_cases hc : choiceNew k
      · simp [hc]
      · simp [hc]
  · intro hcase
    obtain ⟨g1, g2⟩ := M2 hcase
    refine ⟨?_, g2⟩
    show dictLookup (dictUpdate existing (mergeKeys existing nk).1) k = some nv
    rw [dictLookup_dictUpdate, g1]
    cases hex : dictLookup existing k with
    | none => rfl
    | some w => rfl

/-- Witness for the amended C1 merge theorem at the store/translation
pair from the specification example. -/
theorem c1_merge_policy_witness :
    dictLookup (update_lang_file_merge [("Home".toList, "首頁".toList)]
        [("Home".toList, "首页".toList)] false (fun _ => true)).1 ("Home".toList)
      = some ("首頁".toList) ∧
    dictLookup (update_lang_file_merge [("Home".toList, "首頁".toList)]
        [("Home".toList, "首页".toList)] false (fun _ => true)).2 ("Home".toList)
      = some ("首頁".toList, "首页".toList) ∧
    dictLookup (update_lang_file_merge [("Home".toList, "首頁".toList)]
        [("Home".toList, "首页".toList)] true (fun _ => true)).1 ("Home".toList)
      = some ("首页".toList) := by
  obtain ⟨h1, h2, h3⟩ :=
    (c1_merge_policy [("Home".toList, "首頁".toList)] [("Home".toList, "首页".toList)]
        ("Home".toList) ("首页".toList) (fun _ => true) (by decide) (by decide)).1
      ("首頁".toList) (by decide) (by decide) (by decide)
  exact ⟨h1, h2, by simpa using h3⟩

/- ### Syntax-tree model and the span extractor -/

/- Abstract tree-sitter node: type name, byte offset of the node start,
start row, decoded node text, children.  This is the interface surface
`find_translatable_nodes` actually consumes. -/
mutual

inductive Node where
  | mk (type : String) (start_byte : Nat) (row : Nat) (text : LC) (children : NodeList)

inductive NodeList where
  | nil
  | cons (head : Node) (tail : NodeList)

end

def Node.type : Node → String
  | .mk t _ _ _ _ => t

def Node.start_byte : Node → Nat
  | .mk _ s _ _ _ => s

def Node.row : Node → Nat
  | .mk _ _ r _ _ => r

def Node.text : Node → LC
  | .mk _ _ _ tx _ => tx

def Node.children : Node → NodeList
  | .mk _ _ _ _ ch => ch

def NodeList.toList : NodeList → List Node
  | .nil => []
  | .cons n rest => n :: rest.toList

/-- One extraction record (`change` dict in translation.py); the two
optional fields are present exactly for attribute records. -/
structure Change where
  text : LC
  start_byte : Nat
  end_byte : Nat
  line : Nat
  is_dynamic_attribute : Option Bool
  attribute_name : Option LC
deriving DecidableEq

/-- `bytes.find(sub)` on the UTF-8 encodings of the given decoded
strings: byte offset of the first occurrence (UTF-8 is
self-synchronizing, so an encoded-substring occurrence always starts on
a character boundary). -/
def findSubByte : List Char → List Char → Option Nat
  | [], sub => if sub.isEmpty then some 0 else none
  | c :: rest, sub =>
    if sub.isPrefixOf (c :: rest) then some 0
    else (findSubByte rest sub).map (fun n => n + c.utf8Size)

/-- `str.find(sub)`: character index of the first occurrence. -/
def findSubChar : List Char → List Char → Option Nat
  | [], sub => if sub.isEmpty then some 0 else none
  | c :: rest, sub =>
    if sub.isPrefixOf (c :: rest) then some 0
    else (findSubChar rest sub).map (fun n => n + 1)

/-- Python slice `s[1:-1]`. -/
def pyInnerSlice (l : LC) : LC :=
  (l.take (l.length - 1)).drop 1

/-- The fixed directive vocabulary of `is_blade_directive`. -/
def blade_directives : List LC :=
  (["if", "elseif", "else", "endif",
    "foreach", "endforeach", "for", "endfor", "while", "endwhile",
    "switch", "case", "break", "default", "endswitch",
    "php", "endphp", "push", "endpush", "stack",
    "section", "endsection", "yield", "show", "stop",
    "include", "extends", "component", "endcomponent",
    "slot", "endslot", "props", "aware",
    "auth", "endauth", "guest", "endguest",
    "can", "endcan", "cannot", "endcannot",
    "error", "enderror", "empty", "endempty",
    "isset", "endisset", "unless", "endunless",
    "hasSection", "sectionMissing", "continue"]).map String.toList

/-- `is_blade_directive` from translation.py: fixed vocabulary plus the
generic `@word` / `@word(...)` shape; anything else starting with `@` is
treated as literal text. -/
def is_blade_directive (text : LC) : Bool :=
  if ("block(".toList).isPrefixOf text then true
  else if ¬ (("@".toList).isPrefixOf text) then false
  else
    let directive_part := text.drop 1
    let directive_name :=
      pyStrip ((directive_part.takeWhile (fun c => c ≠ '(')).takeWhile (fun c => c ≠ ' '))
    if blade_directives.contains directive_name then true
    else if pyIsAlpha directive_name ∧
        (directive_part.length = directive_name.length ∨
          ("(".toList).isPrefixOf (directive_part.drop directive_name.length)) then true
    else false

/-- Part 1 of `find_translatable_nodes`: literal text nodes (the
directive early-return is handled by the caller). -/
def textNodeChanges (original_content : LC) (node : Node) : List Change :=
  if node.type = "text" then
    let stripped_text := pyStrip node.text
    if stripped_text ≠ [] ∧ pyIsNumeric stripped_text = false ∧ 1 < stripped_text.length then
      match findSubByte node.text stripped_text with
      | some start_offset =>
        let start_byte := node.start_byte + start_offset
        let end_byte := start_byte + utf8Len stripped_text
        match is_already_wrapped original_content start_byte end_byte with
        | some pure_text => [⟨pure_text, start_byte, end_byte, node.row + 1, none, none⟩]
        | none => [⟨stripped_text, start_byte, end_byte, node.row + 1, none, none⟩]
      | none => []
    else []
  else []

/-- The inner loop of the attribute branch: scan the value-text children
of a quoted attribute value; a child whose trimmed value starts with `$`
terminates the scan (`break` in the source). -/
def scanAttrValueChildren (original_content : LC) (attr_name : LC)
    (is_dynamic_attribute : Bool) : List Node → List Change
  | [] => []
  | child :: rest =>
    if child.type = "attribute_value" then
      let attr_text := child.text
      let stripped_attr_text := pyStrip attr_text
      if ("$".toList).isPrefixOf stripped_attr_text then []
      else
        (if stripped_attr_text ≠ [] ∧ pyIsNumeric stripped_attr_text = false ∧
            1 < stripped_attr_text.length then
          let start_offset := (findSubChar attr_text stripped_attr_text).getD 0
          let start_byte := child.start_byte + start_offset
          let end_byte := start_byte + utf8Len stripped_attr_text
          match is_already_wrapped original_content start_byte end_byte with
          | some pure_text =>
            [⟨unescape_php_string pure_text, start_byte, end_byte, child.row + 1,
              some is_dynamic_attribute, some attr_name⟩]
          | none =>
            let text_to_store :=
              if is_dynamic_attribute = true ∧ (['\x27'] : LC).isPrefixOf stripped_attr_text ∧
                  stripped_attr_text.getLast? = some '\x27' then
                pyInnerSlice stripped_attr_text
              else stripped_attr_text
            [⟨unescape_php_string text_to_store, start_byte, end_byte, child.row + 1,
              some is_dynamic_attribute, some attr_name⟩]
        else []) ++ scanAttrValueChildren original_content attr_name is_dynamic_attribute rest
    else scanAttrValueChildren original_content attr_name is_dynamic_attribute rest

/-- Part 2 of `find_translatable_nodes`: attribute records. An unquoted
attribute value only prints a diagnostic, so it contributes nothing. -/
def attrNodeChanges (translatable_attributes : List LC) (original_content : LC)
    (node : Node) : List Change :=
  if node.type = "attribute" then
    match node.children.toList with
    | attr_name_node :: _ =>
      let original_attr := attr_name_node.text
      let attr_name := original_attr.dropWhile (fun c => c = ':')
      let is_dynamic_attribute : Bool := original_attr.length != attr_name.length
      if translatable_attributes.contains attr_name ∧ 2 < node.children.toList.length then
        match (node.children.toList)[2]? with
        | some attr_value_node =>
          if attr_value_node.type = "quoted_attribute_value" then
            scanAttrValueChildren original_content attr_name is_dynamic_attribute
              attr_value_node.children.toList
          else []
        | none => []
      else []
    | [] => []
  else []

mutual

/-- `find_translatable_nodes` from translation.py: pre-order walk; a
text node whose trimmed content is a directive returns early, otherwise
the node contributes its text/attribute records followed by the records
of its children. -/
def find_translatable_nodes (translatable_attributes : List LC) (original_content : LC) :
    Node → List Change
  | .mk ty sb row tx ch =>
    if ty = "text" ∧ is_blade_directive (pyStrip tx) then []
    else
      textNodeChanges original_content (.mk ty sb row tx ch) ++
        attrNodeChanges translatable_attributes original_content (.mk ty sb row tx ch) ++
          find_translatable_nodes_list translatable_attributes original_content ch

def find_translatable_nodes_list (translatable_attributes : List LC) (original_content : LC) :
    NodeList → List Change
  | .nil => []
  | .cons n rest =>
    find_translatable_nodes translatable_attributes original_content n ++
      find_translatable_nodes_list translatable_attributes original_content rest

end

/- ### Claim C7: invariants of extraction records -/

/-- The byte range of every record is the encoding of some stripped
candidate that passed the non-empty/non-numeric/length>1 filters. -/
def SpanInvariant (r : Change) : Prop :=
  r.start_byte < r.end_byte ∧
    ∃ s : LC, r.end_byte = r.start_byte + utf8Len s ∧ 1 < s.length ∧ pyIsNumeric s = false

theorem length_le_utf8Len (l : LC) : l.length ≤ utf8Len l := by
  induction l with
  | nil => simp [utf8Len]
  | cons c t ih =>
    have hc := Char.utf8Size_pos c
    simp only [utf8Len, List.map_cons, List.sum_cons, List.length_cons]
    simp only [utf8Len] at ih
    omega

theorem textNodeChanges_inv (oc : LC) (node : Node) :
    ∀ r ∈ textNodeChanges oc node, SpanInvariant r := by
  intro r hr
  simp only [textNodeChanges] at hr
  split at hr
  · split at hr
    · rename_i hcond
      obtain ⟨hne, hnum, hlen⟩ := hcond
      have hgt := length_le_utf8Len (pyStrip node.text)
      split at hr
      · split at hr
        · rw [List.mem_singleton] at hr
          subst hr
          exact ⟨by dsimp only; omega, pyStrip node.text, rfl, hlen, hnum⟩
        · rw [List.mem_singleton] at hr
          subst hr
          exact ⟨by dsimp only; omega, pyStrip node.text, rfl, hlen, hnum⟩
      · simp at hr
    · simp at hr
  · simp at hr

theorem scanAttrValueChildren_inv (oc an : LC) (dyn : Bool) (ns : List Node) :
    ∀ r ∈ scanAttrValueChildren oc an dyn ns, SpanInvariant r := by
  induction ns with
  | nil => intro r hr; simp [scanAttrValueChildren] at hr
  | cons child rest ih =>
    intro r hr
    simp only [scanAttrValueChildren] at hr
    split at hr
    · split at hr
      · simp at hr
      · rw [List.mem_append] at hr
        rcases hr with h | h
        · split at h
          · rename_i hcond
            obtain ⟨hne, hnum, hlen⟩ := hcond
            have hgt := length_le_utf8Len (pyStrip child.text)
            split at h
            · rw [List.mem_singleton] at h
              subst h
              exact ⟨by dsimp only; omega, pyStrip child.text, rfl, hlen, hnum⟩
            · rw [List.mem_singleton] at h
              subst h
              exact ⟨by dsimp only; omega, pyStrip child.text, rfl, hlen, hnum⟩
          · simp at h
        · exact ih r h
    · exact ih r hr

theorem attrNodeChanges_inv (tas : List LC) (oc : LC) (node : Node) :
    ∀ r ∈ attrNodeChanges tas oc node, SpanInvariant r := by
  intro r hr
  simp only [attrNodeChanges] at hr
  split at hr
  · split at hr
    · split at hr
      · split at hr
        · split at hr
          · exact scanAttrValueChildren_inv oc _ _ _ r hr
          · simp at hr
        · simp at hr
      · simp at hr
    · simp at hr
  · simp at hr

mutual

theorem find_nodes_inv (tas : List LC) (oc : LC) :
    ∀ node : Node, ∀ r ∈ find_translatable_nodes tas oc node, SpanInvariant r
  | .mk ty sb row tx ch => by
    intro r hr
    simp only [find_translatable_nodes] at hr
    split at hr
    · simp at hr
    · rw [List.mem_append] at hr
      rcases hr with h | h
      · rw [List.mem_append] at h
        rcases h with h1 | h2
        · exact textNodeChanges_inv oc _ r h1
        · exact attrNodeChanges_inv tas oc _ r h2
      · exact find_nodes_list_inv tas oc ch r h

theorem find_nodes_list_inv (tas : List LC) (oc : LC) :
    ∀ ns : NodeList, ∀ r ∈ find_translatable_nodes_list tas oc ns, SpanInvariant r
  | .nil => by
    intro r hr
    simp [find_translatable_nodes_list] at hr
  | .cons n rest => by
    intro r hr
    simp only [find_translatable_nodes_list] at hr
    rw [List.mem_append] at hr
    rcases hr with h | h
    · exact find_nodes_inv tas oc n r h
    · exact find_nodes_list_inv tas oc rest r h

end

/-- C7 counterexample: a text node that is already wrapped (the wrapper
around the digit 1) produces a record whose stored text is the unwrapped
inner digit —
length 1 and purely numeric — so the claimed filters do not hold for the
stored text field. -/
theorem c7_stored_text_counterexample :
    ¬ (∀ r ∈ find_translatable_nodes [] ("__(\x271\x27)".toList)
          (.mk ("text") 0 0 ("__(\x271\x27)".toList) .nil),
        1 < r.text.length ∧ pyIsNumeric r.text = false) := by
  decide

/-- C7 (amended): every extraction record satisfies
`start_byte < end_byte` (the range is never empty), and its byte range
is the UTF-8 extent of a stripped candidate string with length > 1 that
is not purely numeric; the *stored* text field, however, may be shorter
or numeric when the span was already wrapped (or for unquoted/unescaped
attribute forms). -/
theorem c7_span_invariant (tas : List LC) (oc : LC) (node : Node) :
    ∀ r ∈ find_translatable_nodes tas oc node,
      r.start_byte < r.end_byte ∧
        ∃ s : LC, r.end_byte = r.start_byte + utf8Len s ∧ 1 < s.length ∧
          pyIsNumeric s = false :=
  fun r hr => find_nodes_inv tas oc node r hr

/-- Witness for the amended C7 invariant on a concrete text node. -/
theorem c7_span_invariant_witness :
    (⟨"Hello".toList, 0, 5, 1, none, none⟩ : Change).start_byte
      < (⟨"Hello".toList, 0, 5, 1, none, none⟩ : Change).end_byte ∧
      ∃ s : LC, (⟨"Hello".toList, 0, 5, 1, none, none⟩ : Change).end_byte
          = (⟨"Hello".toList, 0, 5, 1, none, none⟩ : Change).start_byte + utf8Len s ∧
        1 < s.length ∧ pyIsNumeric s = false :=
  c7_span_invariant [] ("Hello".toList) (.mk ("text") 0 0 ("Hello".toList) .nil)
    ⟨"Hello".toList, 0, 5, 1, none, none⟩ (by decide)

/- ### Claim C9: the `$`-child terminates the attribute-value scan -/

/-- C9 counterexample: a quoted attribute value with value-text children
`$x` and `Hello` yields no record at all — the `$`-child executes
`break`, so the later child `Hello` is never inspected even though it
passes every filter. -/
theorem c9_dollar_break_counterexample :
    find_translatable_nodes ["placeholder".toList] []
        (.mk ("attribute") 0 0 []
          (.cons (.mk ("attribute_name") 0 0 ("placeholder".toList) .nil)
            (.cons (.mk ("=") 11 0 ("=".toList) .nil)
              (.cons (.mk ("quoted_attribute_value") 12 0 []
                  (.cons (.mk ("attribute_value") 13 0 ("$x".toList) .nil)
                    (.cons (.mk ("attribute_value") 16 0 ("Hello".toList) .nil) .nil)))
                .nil))))
      = [] ∧
    pyStrip ("Hello".toList) = "Hello".toList ∧
    ("$".toList).isPrefixOf ("Hello".toList) = false ∧
    1 < ("Hello".toList).length ∧ pyIsNumeric ("Hello".toList) = false := by
  decide

/-- C9 (amended): inside a quoted attribute value, the first value-text
child whose trimmed value begins with `$` stops the scan: it yields no
record and no later child is inspected; the children before it are
scanned normally. -/
theorem c9_dollar_break (oc an : LC) (dyn : Bool) (pre post : List Node) (d : Node)
    (hpre : ∀ c ∈ pre, c.type = "attribute_value" →
      ("$".toList).isPrefixOf (pyStrip c.text) = false)
    (hd : d.type = "attribute_value")
    (hdollar : ("$".toList).isPrefixOf (pyStrip d.text) = true) :
    scanAttrValueChildren oc an dyn (pre ++ d :: post)
      = scanAttrValueChildren oc an dyn pre := by
  induction pre with
  | nil =>
    rw [List.nil_append]
    show scanAttrValueChildren oc an dyn (d :: post) = []
    simp only [scanAttrValueChildren]
    rw [if_pos hd, if_pos hdollar]
  | cons c rest ih =>
    have hc := hpre c (by simp)
    have hrest : ∀ x ∈ rest, x.type = "attribute_value" →
        ("$".toList).isPrefixOf (pyStrip x.text) = false :=
      fun x hx => hpre x (by simp [hx])
    rw [List.cons_append]
    simp only [scanAttrValueChildren]
    by_cases hty : c.type = "attribute_value"
    · have hcf := hc hty
      rw [if_pos hty, if_pos hty, hcf,
        if_neg Bool.false_ne_true, if_neg Bool.false_ne_true, ih hrest]
    · rw [if_neg hty, if_neg hty]
      exact ih hrest

/-- Witness for the amended C9 theorem: a `$`-child after one ordinary
child cuts off everything behind it. -/
theorem c9_dollar_break_witness :
    scanAttrValueChildren [] ("placeholder".toList) false
        ([Node.mk ("attribute_value") 0 0 ("Hi".toList) .nil] ++
          Node.mk ("attribute_value") 5 0 ("$x".toList) .nil ::
            [Node.mk ("attribute_value") 9 0 ("Bye".toList) .nil])
      = scanAttrValueChildren [] ("placeholder".toList) false
          [Node.mk ("attribute_value") 0 0 ("Hi".toList) .nil] :=
  c9_dollar_break [] ("placeholder".toList) false _ _ _ (by decide) (by decide) (by decide)

/- ### `apply_changes`: the rewrite engine (claim C3) -/

/-- Stable insertion for the descending-by-`start_byte` sort that
`apply_changes` performs (`changes.sort(key=..., reverse=True)`). -/
def sortByStartDescIns (c : Change) : List Change → List Change
  | [] => [c]
  | d :: rest =>
    if c.start_byte < d.start_byte then d :: sortByStartDescIns c rest else c :: d :: rest

def sortByStartDesc (l : List Change) : List Change :=
  l.foldr sortByStartDescIns []

structure ApplyState where
  modified_content : LC
  changes_applied : Nat
  approved_changes : List Change

/-- One iteration of the `apply_changes` loop (translation.py lines
359-432): re-detect the wrap state against the current buffer, decide
approval, and splice the rewritten span; the existing wrap text is
re-read from the *original* buffer (line 396). -/
def applyStep (original_content : LC) (is_interactive : Bool) (decide_fn : Change → Bool)
    (st : ApplyState) (change : Change) : ApplyState :=
  let start := change.start_byte
  let e := change.end_byte
  let text_to_wrap := change.text
  let is_attribute := change.attribute_name.isSome
  let is_dynamic := change.is_dynamic_attribute.getD false
  let already_wrapped := (is_already_wrapped st.modified_content start e).isSome
  if is_interactive ∧ already_wrapped ∧ is_attribute ∧ is_dynamic then
    { st with approved_changes := st.approved_changes ++ [change] }
  else
    let approved := if is_interactive then decide_fn change else true
    if approved then
      let approved_changes := st.approved_changes ++ [change]
      if already_wrapped then
        let original_wrapped := byteSlice original_content start e
        let wrapped_text :=
          if is_attribute then
            if is_dynamic then original_wrapped
            else "\x7b!! ".toList ++ original_wrapped ++ " !!\x7d".toList
          else "\x7b\x7b ".toList ++ original_wrapped ++ " \x7d\x7d".toList
        ⟨byteTake start st.modified_content ++ wrapped_text ++ byteDrop e st.modified_content,
          st.changes_applied + 1, approved_changes⟩
      else
        let escaped_text :=
          if is_already_escaped text_to_wrap then text_to_wrap else php_escape text_to_wrap
        let wrapped_text :=
          if is_attribute then
            if is_dynamic then "__(\x27".toList ++ escaped_text ++ "\x27)".toList
            else "\x7b!! __(\x27".toList ++ escaped_text ++ "\x27) !!\x7d".toList
          else "\x7b\x7b __(\x27".toList ++ escaped_text ++ "\x27) \x7d\x7d".toList
        ⟨byteTake start st.modified_content ++ wrapped_text ++ byteDrop e st.modified_content,
          st.changes_applied + 1, approved_changes⟩
    else st

/-- `apply_changes` from translation.py: sort descending by start byte,
splice right to left; in interactive mode the record list is narrowed to
the approved subset. -/
def apply_changes (original_content : LC) (changes : List Change) (is_interactive : Bool)
    (decide_fn : Change → Bool) : LC × Nat × List Change :=
  let sorted := sortByStartDesc changes
  let st :=
    sorted.foldl (applyStep original_content is_interactive decide_fn)
      ⟨original_content, 0, []⟩
  (st.modified_content, st.changes_applied,
    if is_interactive then st.approved_changes else changes)

/-- The §4.3 mutation table, written from the specification: the
replacement text for one approved record as a function of its wrap state
and kind. -/
def specMutationRow (oc : LC) (c : Change) : LC :=
  let is_attribute := c.attribute_name.isSome
  let is_dynamic := c.is_dynamic_attribute.getD false
  match is_already_wrapped oc c.start_byte c.end_byte with
  | some _ =>
    let existing := byteSlice oc c.start_byte c.end_byte
    if is_attribute then
      if is_dynamic then existing
      else "\x7b!! ".toList ++ existing ++ " !!\x7d".toList
    else "\x7b\x7b ".toList ++ existing ++ " \x7d\x7d".toList
  | none =>
    let escaped := if is_already_escaped c.text then c.text else php_escape c.text
    if is_attribute then
      if is_dynamic then "__(\x27".toList ++ escaped ++ "\x27)".toList
      else "\x7b!! __(\x27".toList ++ escaped ++ "\x27) !!\x7d".toList
    else "\x7b\x7b __(\x27".toList ++ escaped ++ "\x27) \x7d\x7d".toList

/-- C3: `apply_changes` rewrites an approved record's span exactly per
the §4.3 mutation table — the output buffer is the original with the
span `[start_byte, end_byte)` replaced by the table row (not-wrapped
text node → echo braces around the quoted wrapped escaped text,
not-wrapped static attribute → raw-echo braces around it, not-wrapped
dynamic attribute → the bare wrapped escaped text with no braces,
wrapped text node →
`{{ <existing> }}`, wrapped static attribute → `{!! <existing> !!}`,
wrapped dynamic attribute → the existing wrap) — and in interactive mode
an already-wrapped dynamic attribute leaves the buffer untouched. -/
theorem c3_mutation_table (oc : LC) (c : Change) (d : Change → Bool) :
    (apply_changes oc [c] false d).1
      = byteTake c.start_byte oc ++ specMutationRow oc c ++ byteDrop c.end_byte oc ∧
    ((is_already_wrapped oc c.start_byte c.end_byte).isSome = true →
      c.attribute_name.isSome = true → c.is_dynamic_attribute.getD false = true →
        (apply_changes oc [c] true d).1 = oc) := by
  constructor
  · show (applyStep oc false d ⟨oc, 0, []⟩ c).modified_content = _
    simp only [applyStep, specMutationRow]
    cases hw : is_already_wrapped oc c.start_byte c.end_byte with
    | some w =>
      simp only [hw, Option.isSome_some]
      by_cases hattr : c.attribute_name.isSome
      · by_cases hdyn : c.is_dynamic_attribute.getD false
        · simp [hattr, hdyn]
        · simp [hattr, hdyn]
      · simp [hattr]
    | none =>
      simp only [hw, Option.isSome_none]
      by_cases hattr : c.attribute_name.isSome
      · by_cases hdyn : c.is_dynamic_attribute.getD false
        · simp [hattr, hdyn]
        · simp [hattr, hdyn]
      · simp [hattr]
  · intro hw hattr hdyn
    show (applyStep oc true d ⟨oc, 0, []⟩ c).modified_content = oc
    simp only [applyStep]
    rw [if_pos ⟨trivial, hw, hattr, hdyn⟩]

/-- Witness for C3: interactively, an already-wrapped dynamic attribute
record leaves the buffer byte-identical. -/
theorem c3_mutation_table_witness :
    (apply_changes ("__(\x27Hi\x27)".toList)
        [⟨"Hi".toList, 0, 8, 1, some true, some ("placeholder".toList)⟩] true
        (fun _ => false)).1
      = "__(\x27Hi\x27)".toList :=
  (c3_mutation_table ("__(\x27Hi\x27)".toList)
      ⟨"Hi".toList, 0, 8, 1, some true, some ("placeholder".toList)⟩ (fun _ => false)).2
    (by decide) (by decide) (by decide)

/- ### `parse_request_output`: the free-text reply parser (claim C8) -/

/-- Python `str.rstrip(".")`: remove every trailing period. -/
def pyRstripDot (l : LC) : LC :=
  (l.reverse.dropWhile (fun c => c = '.')).reverse

/-- Python dict assignment `d[k] = v`: overwrite in place or append. -/
def dictInsert (d : List (LC × LC)) (k v : LC) : List (LC × LC) :=
  if (dictLookup d k).isSome then
    d.map (fun p => if p.1 = k then (k, v) else p)
  else d ++ [(k, v)]

/-- `translations[lang][key] = v` on the per-language map. -/
def setTrans (tr : List (LC × List (LC × LC))) (lang k v : LC) :
    List (LC × List (LC × LC)) :=
  tr.map (fun p => if p.1 = lang then (p.1, dictInsert p.2 k v) else p)

/-- One line of a reply block (the inner loop of `parse_request_output`,
translation.py lines 759-772): find the first target language whose
`lang:` prefix matches, strip the remainder, strip a bounding quote
pair, strip trailing periods when the source key has none, and record
the translation. -/
def processLine (target_languages : List LC) (original_key : LC)
    (tr : List (LC × List (LC × LC))) (rawLine : LC) : List (LC × List (LC × LC)) :=
  let line := pyStrip rawLine
  if line = [] then tr
  else
    match target_languages.find? (fun lang => (lang ++ [':']).isPrefixOf line) with
    | some target_language =>
      let translation := pyStrip (line.drop (target_language ++ [':']).length)
      let translation :=
        if ((['"'] : LC).isPrefixOf translation ∧ translation.getLast? = some '"') ∨
            ((['\x27'] : LC).isPrefixOf translation ∧ translation.getLast? = some '\x27') then
          pyInnerSlice translation
        else translation
      let translation :=
        if ¬ original_key.getLast? = some '.' ∧ translation.getLast? = some '.' then
          pyRstripDot translation
        else translation
      setTrans tr target_language original_key translation
    | none => tr

/-- Python `str.split("\n\n")`: non-overlapping left-to-right split on
the two-character separator. -/
def splitNlNl : LC → List LC
  | [] => [[]]
  | [c] => [[c]]
  | c1 :: c2 :: rest =>
    if c1 = '\n' ∧ c2 = '\n' then [] :: splitNlNl rest
    else
      match splitNlNl (c2 :: rest) with
      | [] => [[c1]]
      | g :: gs => (c1 :: g) :: gs

/-- `parse_request_output` from translation.py: one blank-line-separated
block per input key in order; the first line of a block (the echoed key)
is skipped; unmatched lines and missing blocks are silently ignored. -/
def parse_request_output (response_text : LC) (texts_list : List LC)
    (target_languages : List LC) : List (LC × List (LC × LC)) :=
  let translations := target_languages.map (fun lang => (lang, ([] : List (LC × LC))))
  let sections := splitNlNl (pyStrip response_text)
  (texts_list.enum).foldl
    (fun tr p =>
      if p.1 < sections.length then
        let sect := pyStrip (sections.getD p.1 [])
        let lines := sect.splitOn '\n'
        (lines.drop 1).foldl (processLine target_languages p.2) tr
      else tr)
    translations

/-- C8 counterexample: with source key `Hi` and reply line
`zh: Hello...`, the parser strips all three trailing periods, not a
single one. -/
theorem c8_trailing_period_counterexample :
    dictLookup (parse_request_output ("Hi\nzh: Hello...".toList) ["Hi".toList] ["zh".toList])
        ("zh".toList)
      = some [("Hi".toList, "Hello".toList)] ∧
    ("Hello".toList : LC) ≠ "Hello..".toList := by
  refine ⟨by decide, by decide⟩

/-- Post-processing of one matched translation line as the amended claim
states it: strip the first and last characters when the trimmed
remainder both starts and ends with the same quote character, then strip
ALL trailing periods when the source key does not end with a period. -/
def specLinePostprocess (original_key translation : LC) : LC :=
  let t :=
    if ((['"'] : LC).isPrefixOf translation ∧ translation.getLast? = some '"') ∨
        ((['\x27'] : LC).isPrefixOf translation ∧ translation.getLast? = some '\x27') then
      pyInnerSlice translation
    else translation
  if ¬ original_key.getLast? = some '.' ∧ t.getLast? = some '.' then pyRstripDot t else t

/-- C8 (amended): for each translation line matching a target-language
prefix, the recorded translation is the stripped remainder after the
`lang:` prefix with a bounding quote pair removed when present and with
ALL trailing periods removed when the source key does not itself end
with a period. -/
theorem c8_line_postprocess (target_languages : List LC) (original_key raw lang : LC)
    (tr : List (LC × List (LC × LC)))
    (hfind : target_languages.find?
        (fun l => (l ++ [':']).isPrefixOf (lang ++ ':' :: raw)) = some lang)
    (hline : pyStrip (lang ++ ':' :: raw) = lang ++ ':' :: raw) :
    processLine target_languages original_key tr (lang ++ ':' :: raw)
      = setTrans tr lang original_key (specLinePostprocess original_key (pyStrip raw)) := by
  have hne : ¬ (lang ++ ':' :: raw = []) := by simp
  have hdrop : (lang ++ ':' :: raw).drop (lang ++ [':']).length = raw := by
    rw [show lang ++ ':' :: raw = (lang ++ [':']) ++ raw from by simp]
    exact List.drop_left _ _
  simp only [processLine]
  rw [hline, if_neg hne, hfind]
  simp only []
  rw [hdrop]
  rfl

/-- Witness for the amended C8 theorem on a concrete line. -/
theorem c8_line_postprocess_witness :
    processLine ["zh".toList] ("Hi".toList) [("zh".toList, [])]
        ("zh".toList ++ ':' :: " Hello...".toList)
      = setTrans [("zh".toList, [])] ("zh".toList) ("Hi".toList)
          (specLinePostprocess ("Hi".toList) (pyStrip (" Hello...".toList))) :=
  c8_line_postprocess ["zh".toList] ("Hi".toList) (" Hello...".toList) ("zh".toList)
    [("zh".toList, [])] (by decide) (by decide)

/- ### `translate_and_save`: dual-backend protocol (claims C5, C10) -/

def API_SERVICE_ENDPOINT : LC := "http://localhost:8000/".toList

def MAX_SERVICE_ENDPOINT : LC := "http://localhost:8080/tasks/translation/".toList

/-- The two wire-request body shapes of `translate_and_save`: the
structured JSON body of the FastAPI service and the prompt-completion
envelope of the cmscore service. -/
inductive ReqBody where
  | translateJson (texts : List LC) (source_language : LC) (target_languages : List LC)
      (ai_model : LC) (hardcoded_translations : List (LC × List (LC × LC)))
      (retranslate : Bool)
  | promptEnvelope (system_prompt : LC) (user_content : LC)
deriving DecidableEq

structure HttpRequest where
  endpoint : LC
  headers : Option (List (LC × LC))
  body : ReqBody
deriving DecidableEq

def bodyIsPromptEnvelope : ReqBody → Bool
  | .promptEnvelope _ _ => true
  | .translateJson _ _ _ _ _ _ => false

/-- A completed HTTP response: status plus the two views of
`response.json()` the two code paths read (free text for
`parse_request_output`, the `translations` field otherwise). -/
structure PyResponse where
  status_code : Nat
  bodyText : LC
  bodyTranslations : List (LC × List (LC × LC))

/-- `gen_format_example` from translation.py. -/
def gen_format_example (target_languages : List LC) : LC :=
  List.intercalate ['\n']
    (target_languages.map (fun lang => "   ".toList ++ lang ++ ": [translation]".toList))

/-- `gen_hardcoded_example` from translation.py. -/
def gen_hardcoded_example (hardcoded_translations : List (LC × List (LC × LC)))
    (target_languages : List LC) : LC :=
  let hardcoded_examples := target_languages.foldl
    (fun acc target_language =>
      match dictLookup hardcoded_translations target_language with
      | some language_translations =>
        if language_translations ≠ [] then
          acc ++ "\n\nFor ".toList ++ target_language
            ++ ", prefer these translations when applicable:\n".toList
            ++ language_translations.foldl
                (fun a kv => a ++ "- \x27".toList ++ kv.1 ++ "\x27 → \x27".toList ++ kv.2
                  ++ "\x27\n".toList) []
        else acc
      | none => acc) []
  if hardcoded_examples ≠ [] then
    hardcoded_examples
      ++ "\nUse these preferred translations when the terms appear standalone or can be naturally incorporated.".toList
  else hardcoded_examples

/-- The numbered key list `keys_text` of `translate_and_save`. -/
def gen_keys_text (keys_list : List LC) : LC :=
  List.intercalate ['\n']
    ((keys_list.enum).map (fun p => (toString (p.1 + 1)).toList ++ ". ".toList ++ p.2))

/-- `system_prompt_first` of `translate_and_save`. -/
def system_prompt_first (source_language : LC) (target_languages : List LC)
    (format_example hardcoded_examples : LC) : LC :=
  List.intercalate ['\n']
    ["You are a professional translator. Translate the following numbered list of texts from ".toList
        ++ source_language ++ " to each of these languages: ".toList
        ++ List.intercalate ", ".toList target_languages ++ ".".toList,
      "Instructions:".toList,
      "Use formal written language only, not spoken or colloquial forms.".toList,
      "Use regionally appropriate vocabulary, expressions, and tone.".toList,
      "Adapt meaning for clarity and naturalness in a web context; do not translate word-for-word.".toList,
      "For each numbered text, provide translations for all languages in this format:\n\n1. [Original text]\n".toList
        ++ format_example ++ "\n\n2. [Next text]\n".toList ++ format_example,
      "Return ONLY the translations in this exact format without any explanations.".toList
        ++ hardcoded_examples]

/-- The user message of the prompt-completion envelope. -/
def secondary_user_content (keys_text : LC) : LC :=
  "Translate the following text based on the instructions. You can refer to <context> to reference similar text.\n<context>\n\x7bcontext\x7d\n</context>\n".toList
    ++ keys_text

/-- Request construction of `translate_and_save` (translation.py lines
783-831): primary/secondary endpoint, headers and body, swapped when
`use_cmscore_ai_first` is set. -/
def translateRequests (keys_list : List LC) (source_language : LC)
    (target_languages : List LC) (ai_model cmscore_ai_token : LC)
    (hardcoded_translations : List (LC × List (LC × LC))) (use_cmscore_ai_first : Bool) :
    HttpRequest × HttpRequest :=
  let primary_endpoint := API_SERVICE_ENDPOINT ++ "translate".toList
  let secondary_endpoint := MAX_SERVICE_ENDPOINT ++ ai_model
  let primary_headers : Option (List (LC × LC)) := none
  let primary_body : ReqBody :=
    .translateJson keys_list source_language target_languages ai_model
      hardcoded_translations false
  let secondary_headers : Option (List (LC × LC)) :=
    some [("Authorization".toList, "Bearer ".toList ++ cmscore_ai_token),
      ("Content-Type".toList, "application/json".toList)]
  let format_example := gen_format_example target_languages
  let hardcoded_examples := gen_hardcoded_example hardcoded_translations target_languages
  let keys_text := gen_keys_text keys_list
  let secondary_body : ReqBody :=
    .promptEnvelope
      (system_prompt_first source_language target_languages format_example hardcoded_examples)
      (secondary_user_content keys_text)
  if use_cmscore_ai_first then
    (⟨secondary_endpoint, secondary_headers, secondary_body⟩,
      ⟨primary_endpoint, primary_headers, primary_body⟩)
  else
    (⟨primary_endpoint, primary_headers, primary_body⟩,
      ⟨secondary_endpoint, secondary_headers, secondary_body⟩)

/-- `if not response or response.status_code != 200` — a request counts
as failed when it raised (`none`) or returned a non-200 status. -/
def respOk : Option PyResponse → Bool
  | some resp => resp.status_code == 200
  | none => false

/-- The dual-backend protocol of `translate_and_save` (translation.py
lines 833-856): issue the first request; on failure issue the swapped
second request and flip `using_cmscore_ai`.  Returns the issued
requests, the final response, and the flag selecting the parser. -/
def translate_flow (keys_list : List LC) (source_language : LC) (target_languages : List LC)
    (ai_model cmscore_ai_token : LC) (hardcoded_translations : List (LC × List (LC × LC)))
    (use_cmscore_ai_first : Bool) (net : HttpRequest → Option PyResponse) :
    List HttpRequest × Option PyResponse × Bool :=
  let reqs := translateRequests keys_list source_language target_languages ai_model
    cmscore_ai_token hardcoded_translations use_cmscore_ai_first
  let response := net reqs.1
  if respOk response then ([reqs.1], response, use_cmscore_ai_first)
  else ([reqs.1, reqs.2], net reqs.2, !use_cmscore_ai_first)

/-- The non-interactive assignment loops on a 200 response
(translation.py lines 997-1001): every requested key gets a value for
every target language, defaulting to the key itself. -/
def successAssign (translations : List (LC × List (LC × LC))) (keys_list : List LC)
    (target_languages : List LC) : List (LC × List (LC × LC)) :=
  target_languages.map (fun lang =>
    (lang, keys_list.map (fun original_key =>
      (original_key,
        (dictLookup ((dictLookup translations lang).getD []) original_key).getD
          original_key))))

/-- The both-backends-failed branch (translation.py lines 1008-1010):
every key maps to the empty string for every target language. -/
def failAssign (keys_list : List LC) (target_languages : List LC) :
    List (LC × List (LC × LC)) :=
  target_languages.map (fun lang => (lang, keys_list.map (fun k => (k, ([] : LC)))))

/-- `translated_keys_by_language` as computed by the non-interactive path
of `translate_and_save`: parse per the active backend format on success,
empty-string sentinel on failure. -/
def translated_keys_by_language (keys_list : List LC) (target_languages : List LC)
    (outcome : Option PyResponse × Bool) : List (LC × List (LC × LC)) :=
  match outcome.1 with
  | some resp =>
    if resp.status_code = 200 then
      let translations :=
        if outcome.2 then parse_request_output resp.bodyText keys_list target_languages
        else resp.bodyTranslations
      successAssign translations keys_list target_languages
    else failAssign keys_list target_languages
  | none => failAssign keys_list target_languages

/-- The observable outcome of one non-interactive `translate_and_save`
run before the per-language merge: the issued requests and the map
handed to `update_lang_file`. -/
def translate_and_save_outcome (keys_list : List LC) (source_language : LC)
    (target_languages : List LC) (ai_model cmscore_ai_token : LC)
    (hardcoded_translations : List (LC × List (LC × LC))) (use_cmscore_ai_first : Bool)
    (net : HttpRequest → Option PyResponse) :
    List HttpRequest × List (LC × List (LC × LC)) :=
  let r := translate_flow keys_list source_language target_languages ai_model
    cmscore_ai_token hardcoded_translations use_cmscore_ai_first net
  (r.1, translated_keys_by_language keys_list target_languages r.2)

/-- The two service endpoints differ for every model name: they already
differ at character 19 of their fixed prefixes. -/
theorem endpoints_ne (m : LC) :
    API_SERVICE_ENDPOINT ++ "translate".toList ≠ MAX_SERVICE_ENDPOINT ++ m := by
  intro h
  have h19 : (MAX_SERVICE_ENDPOINT ++ m)[19]? = MAX_SERVICE_ENDPOINT[19]? :=
    List.getElem?_append_left (by decide)
  have hL : (API_SERVICE_ENDPOINT ++ "translate".toList)[19]? = some '0' := by decide
  rw [h, h19] at hL
  exact absurd hL (by decide)

/-- C5: when the first translation request fails (transport exception or
non-200 status), exactly one structurally different second request is
issued — to the other endpoint, with the other headers, with the other
body shape, and with the response-format flag flipped; if the second
request also fails, every requested key maps to the empty string for
every target language (the embedding is a total function, so no
exception reaches the caller). -/
theorem c5_fallback_and_sentinel (keys_list : List LC) (source_language : LC)
    (target_languages : List LC) (ai_model cmscore_ai_token : LC)
    (hardcoded_translations : List (LC × List (LC × LC))) (use_cmscore_ai_first : Bool)
    (net : HttpRequest → Option PyResponse)
    (hfail : respOk (net (translateRequests keys_list source_language target_languages
      ai_model cmscore_ai_token hardcoded_translations use_cmscore_ai_first).1) = false) :
    (translate_flow keys_list source_language target_languages ai_model cmscore_ai_token
        hardcoded_translations use_cmscore_ai_first net).1
      = [(translateRequests keys_list source_language target_languages ai_model
            cmscore_ai_token hardcoded_translations use_cmscore_ai_first).1,
          (translateRequests keys_list source_language target_languages ai_model
            cmscore_ai_token hardcoded_translations use_cmscore_ai_first).2] ∧
    (translateRequests keys_list source_language target_languages ai_model cmscore_ai_token
        hardcoded_translations use_cmscore_ai_first).2.endpoint
      ≠ (translateRequests keys_list source_language target_languages ai_model
          cmscore_ai_token hardcoded_translations use_cmscore_ai_first).1.endpoint ∧
    bodyIsPromptEnvelope (translateRequests keys_list source_language target_languages
        ai_model cmscore_ai_token hardcoded_translations use_cmscore_ai_first).2.body
      = !bodyIsPromptEnvelope (translateRequests keys_list source_language target_languages
          ai_model cmscore_ai_token hardcoded_translations use_cmscore_ai_first).1.body ∧
    (translateRequests keys_list source_language target_languages ai_model cmscore_ai_token
        hardcoded_translations use_cmscore_ai_first).2.headers
      ≠ (translateRequests keys_list source_language target_languages ai_model
          cmscore_ai_token hardcoded_translations use_cmscore_ai_first).1.headers ∧
    (translate_flow keys_list source_language target_languages ai_model cmscore_ai_token
        hardcoded_translations use_cmscore_ai_first net).2.2 = !use_cmscore_ai_first ∧
    (respOk (net (translateRequests keys_list source_language target_languages ai_model
        cmscore_ai_token hardcoded_translations use_cmscore_ai_first).2) = false →
      (translate_and_save_outcome keys_list source_language target_languages ai_model
          cmscore_ai_token hardcoded_translations use_cmscore_ai_first net).2
        = failAssign keys_list target_languages) := by
  refine ⟨?_, ?_, ?_, ?_, ?_, ?_⟩
  · simp [translate_flow, hfail]
  · cases use_cmscore_ai_first with
    | true =>
      simp only [translateRequests, if_pos]
      exact endpoints_ne ai_model
    | false =>
      simp only [translateRequests, if_neg]
      exact Ne.symm (endpoints_ne ai_model)
  · cases use_cmscore_ai_first with
    | true => rfl
    | false => rfl
  · cases use_cmscore_ai_first with
    | true => simp [translateRequests]
    | false => simp [translateRequests]
  · simp [translate_flow, hfail]
  · intro h2
    show translated_keys_by_language keys_list target_languages
        ((translate_flow keys_list source_language target_languages ai_model
          cmscore_ai_token hardcoded_translations use_cmscore_ai_first net).2)
      = failAssign keys_list target_languages
    have hflow : (translate_flow keys_list source_language target_languages ai_model
        cmscore_ai_token hardcoded_translations use_cmscore_ai_first net).2
      = (net (translateRequests keys_list source_language target_languages ai_model
          cmscore_ai_token hardcoded_translations use_cmscore_ai_first).2,
        !use_cmscore_ai_first) := by
      simp [translate_flow, hfail]
    rw [hflow]
    cases hr : net (translateRequests keys_list source_language target_languages ai_model
        cmscore_ai_token hardcoded_translations use_cmscore_ai_first).2 with
    | none => rfl
    | some resp =>
      rw [hr] at h2
      have hst : ¬ resp.status_code = 200 := by
        intro hc
        simp [respOk, hc] at h2
      simp [translated_keys_by_language, hst]

/-- Witness for C5: a network that always raises makes both requests
fail, and all keys get the empty-string sentinel. -/
theorem c5_fallback_and_sentinel_witness :
    (translate_and_save_outcome ["Hi".toList] ("en".toList) ["zh".toList] ("m".toList)
        ("tok".toList) [] false (fun _ => none)).2
      = failAssign ["Hi".toList] ["zh".toList] :=
  ((c5_fallback_and_sentinel ["Hi".toList] ("en".toList) ["zh".toList] ("m".toList)
      ("tok".toList) [] false (fun _ => none) rfl).2.2.2.2.2) rfl

theorem dictLookup_map_mem {β : Type} (f : LC → β) (ls : List LC) (x : LC) (hx : x ∈ ls) :
    dictLookup (ls.map (fun l => (l, f l))) x = some (f x) := by
  induction ls with
  | nil => cases hx
  | cons a t ih =>
    rw [List.map_cons, dictLookup_cons]
    by_cases h : a = x
    · rw [if_pos h, h]
    · rw [if_neg h]
      exact ih (List.mem_of_ne_of_mem (fun hxa => h hxa.symm) hx)

/-- C10: in the non-interactive success path every requested key is
assigned a value for every target language before merging: the value is
the parsed translation when present, and the original source-language
key string itself when the key is absent for that language — never
omitted and never the empty string. -/
theorem c10_success_assign_total (translations : List (LC × List (LC × LC)))
    (keys_list target_languages : List LC) (lang k : LC)
    (hlang : lang ∈ target_languages) (hkey : k ∈ keys_list) :
    ∃ d, dictLookup (successAssign translations keys_list target_languages) lang = some d ∧
      dictLookup d k
        = some ((dictLookup ((dictLookup translations lang).getD []) k).getD k) ∧
      (dictLookup ((dictLookup translations lang).getD []) k = none →
        dictLookup d k = some k) := by
  refine ⟨keys_list.map (fun original_key =>
      (original_key,
        (dictLookup ((dictLookup translations lang).getD []) original_key).getD
          original_key)), ?_, ?_, ?_⟩
  · exact dictLookup_map_mem _ target_languages lang hlang
  · exact dictLookup_map_mem _ keys_list k hkey
  · intro habs
    rw [dictLookup_map_mem _ keys_list k hkey, habs]
    rfl

/-- Witness for C10: a key absent from the parsed translations is
assigned the key string itself. -/
theorem c10_success_assign_total_witness :
    ∃ d, dictLookup (successAssign [("zh".toList, [])] ["Hi".toList] ["zh".toList])
          ("zh".toList) = some d ∧
      dictLookup d ("Hi".toList)
        = some ((dictLookup ((dictLookup [("zh".toList, ([] : List (LC × LC)))]
            ("zh".toList)).getD []) ("Hi".toList)).getD ("Hi".toList)) ∧
      (dictLookup ((dictLookup [("zh".toList, ([] : List (LC × LC)))]
          ("zh".toList)).getD []) ("Hi".toList) = none →
        dictLookup d ("Hi".toList) = some ("Hi".toList)) :=
  c10_success_assign_total [("zh".toList, [])] ["Hi".toList] ["zh".toList]
    ("zh".toList) ("Hi".toList) (by decide) (by decide)
